import Mathlib

/-!
# Verification of sopel-remind against its specification

Shallow embedding of `sopel_remind/backend.py` and `sopel_remind/plugin.py`:

* the relative-duration command parser (`IN_TIME_PATTERN` / `parse_in_delta`),
  translated as a backtracking matcher that mirrors the Python regex
  alternation and its greedy/optional groups;
* the absolute date/time command parser (`AT_TIME_PATTERN` / `parse_at_time`),
  with `datetime` modelled as a record of calendar fields; the timezone is
  modelled as a fixed offset, under which Python's aware comparison agrees
  with comparison of the naive fields;
* the CSV reminder store (`save_reminders` / `load_reminders`), with the file
  system modelled as an optional file content;
* the periodic delivery sweep (`reminder_job`), with the IRC world modelled
  as the channel-membership map and the known-user list the code consults;
* the legacy migration (`migrate_builtin` and the migration part of
  `configure`).
-/

namespace SopelRemind

/-! ## Character and digit utilities -/

/-- Python's `\s` character class (ASCII part). -/
def isPySpace (c : Char) : Bool :=
  c = ' ' || c = '\t' || c = '\n' || c = '\r' || c = '\x0b' || c = '\x0c'

/-- Numeric value of a decimal digit character. -/
def digitVal (c : Char) : Nat := c.toNat - 48

/-- Value of a list of decimal digit characters, most significant first. -/
def natOfDigits (ds : List Char) : Nat :=
  ds.foldl (fun acc c => acc * 10 + digitVal c) 0

/-- Split a character list into its maximal leading run of decimal digits
and the rest (the behaviour of a greedy `\d*`). -/
def splitDigits : List Char → List Char × List Char
  | [] => ([], [])
  | c :: cs =>
    if c.isDigit then
      let p := splitDigits cs
      (c :: p.1, p.2)
    else ([], c :: cs)

/-- Greedy `(\d+)`: at least one digit, maximal munch, returning its value.
In every pattern of the plugin a `\d+` group is followed by a non-digit
letter, so the maximal munch is the only length that can succeed and the
regex behaviour is deterministic. -/
def munchDigits (cs : List Char) : Option (Nat × List Char) :=
  match splitDigits cs with
  | ([], _) => none
  | (ds, r) => some (natOfDigits ds, r)

/-- Decimal digits of a natural number, most significant first
(the characters Python's `str` produces for a non-negative `int`). -/
def digitChar (n : Nat) : Char :=
  match n with
  | 0 => '0' | 1 => '1' | 2 => '2' | 3 => '3' | 4 => '4'
  | 5 => '5' | 6 => '6' | 7 => '7' | 8 => '8' | _ => '9'

/-- Decimal rendering, with fuel (any fuel above the number suffices). -/
def digitsOfAux : Nat → Nat → List Char
  | 0, _ => []
  | fuel + 1, n =>
    if n < 10 then [digitChar n]
    else digitsOfAux fuel (n / 10) ++ [digitChar (n % 10)]

/-- Decimal rendering of a natural number as a character list. -/
def digitsOf (n : Nat) : List Char :=
  digitsOfAux (n + 1) n

/-! ## The `in` command pattern (`IN_TIME_PATTERN`, `IN_ARGS_PATTERN`)

The Python pattern is

`(?:days-shape|hours-shape|minutes-shape|seconds-shape)\s+(?P<text>\S+.*)`

where each shape starts with a mandatory `(\d+)X` component and continues
with optional `(?:\s?(\d+)Y)?` components.  The embedding below mirrors the
backtracking of `re.match` on this pattern: each optional group is tried
greedily and undone (via `Option.orElse`) when the continuation fails; the
four shapes are tried in the alternation order. -/

/-- A mandatory component `(\d+)u`: digits followed by the unit letter. -/
def comp (u : Char) (cs : List Char) : Option (Nat × List Char) :=
  match munchDigits cs with
  | some (n, c :: r) => if c = u then some (n, r) else none
  | _ => none

/-- An optional component `(?:\s?(\d+)u)?`, reduced to its (deterministic)
single way of matching: an optional single whitespace, then digits, then the
unit letter.  (If the leading whitespace is present but digits do not follow,
the zero-width `\s?` alternative places `\d+` on the whitespace and also
fails, so the whole group fails.) -/
def optComp (u : Char) (cs : List Char) : Option (Nat × List Char) :=
  match cs with
  | c :: r => if isPySpace c then comp u r else comp u (c :: r)
  | [] => none

/-- The mandatory tail `\s+(?P<text>\S+.*)` of both argument patterns:
one or more whitespace characters, then the `text` group, which is a maximal
run of non-whitespace followed by a maximal run of non-newline characters
(`.` does not match a newline and `re.match` does not anchor the end). -/
def tailParse (cs : List Char) : Option (List Char) :=
  match cs with
  | [] => none
  | c :: r =>
    if isPySpace c then
      let r1 := (c :: r).dropWhile isPySpace
      match r1 with
      | [] => none
      | _ =>
        let a := r1.takeWhile (fun x => !isPySpace x)
        let b := (r1.drop a.length).takeWhile (fun x => x ≠ '\n')
        some (a ++ b)
    else none

/-- Seconds of the `timedelta` the Python code builds from the four captured
components. -/
def deltaSeconds (d h m s : Nat) : Nat :=
  d * 86400 + h * 3600 + m * 60 + s

/-- End of a shape: match the mandatory `\s+text` tail and produce the
duration (as `timedelta` seconds) and the `text` group. -/
def inFinish (d h m s : Nat) (cs : List Char) : Option (Nat × List Char) :=
  (tailParse cs).map (fun t => (deltaSeconds d h m s, t))

/-- An optional component followed by a continuation, with the regex
backtracking: the greedily matched group is undone when the continuation
fails. -/
def optStage (u : Char) (next : Nat → List Char → Option (Nat × List Char))
    (cs : List Char) : Option (Nat × List Char) :=
  ((optComp u cs).bind (fun p => next p.1 p.2)).orElse (fun _ => next 0 cs)

/-- `(?:\s?(\d+)s)?` then the tail. -/
def inFromS (d h m : Nat) (cs : List Char) : Option (Nat × List Char) :=
  optStage 's' (fun s r => inFinish d h m s r) cs

/-- `(?:\s?(\d+)m)?(?:\s?(\d+)s)?` then the tail. -/
def inFromM (d h : Nat) (cs : List Char) : Option (Nat × List Char) :=
  optStage 'm' (fun m r => inFromS d h m r) cs

/-- `(?:\s?(\d+)h)?(?:\s?(\d+)m)?(?:\s?(\d+)s)?` then the tail. -/
def inFromH (d : Nat) (cs : List Char) : Option (Nat × List Char) :=
  optStage 'h' (fun h r => inFromM d h r) cs

/-- The `days` shape `(?P<days>(?:(\d+)d)(?:\s?(\d+)h)?(?:\s?(\d+)m)?(?:\s?(\d+)s)?)`
followed by the tail. -/
def shapeDays (cs : List Char) : Option (Nat × List Char) :=
  match comp 'd' cs with
  | some (d, r) => inFromH d r
  | none => none

/-- The `hours` shape followed by the tail. -/
def shapeHours (cs : List Char) : Option (Nat × List Char) :=
  match comp 'h' cs with
  | some (h, r) => inFromM 0 h r
  | none => none

/-- The `minutes` shape followed by the tail. -/
def shapeMinutes (cs : List Char) : Option (Nat × List Char) :=
  match comp 'm' cs with
  | some (m, r) => inFromS 0 0 m r
  | none => none

/-- The `seconds` shape followed by the tail. -/
def shapeSeconds (cs : List Char) : Option (Nat × List Char) :=
  match comp 's' cs with
  | some (s, r) => inFinish 0 0 0 s r
  | none => none

/-- `backend.parse_in_delta`: match `IN_ARGS_PATTERN` against the line and
return the duration in seconds together with the message text; `none` models
the `ValueError` raised when the line does not match. -/
def parse_in_delta (line : String) : Option (Nat × String) :=
  (((shapeDays line.toList).orElse (fun _ => shapeHours line.toList)).orElse
    (fun _ => (shapeMinutes line.toList).orElse
      (fun _ => shapeSeconds line.toList))).map
    (fun p => (p.1, p.2.asString))

/-! ## Calendar model (Python `datetime`)

A `datetime` value is modelled by its calendar fields.  The timezone is
modelled as a fixed offset: `parse_at_time` localises the composed instant in
the timezone of its `now` argument, so both sides of its `<=` comparison
carry the same offset and Python's aware comparison coincides with
comparison of the naive fields. -/

/-- Naive calendar fields of a Python `datetime`. -/
structure NaiveDT where
  year : Nat
  month : Nat
  day : Nat
  hour : Nat
  minute : Nat
  second : Nat
deriving DecidableEq, Repr

/-- Gregorian leap year. -/
def isLeap (y : Nat) : Bool :=
  y % 4 = 0 && (y % 100 ≠ 0 || y % 400 = 0)

/-- Length of a month. -/
def daysInMonth (y mo : Nat) : Nat :=
  if mo = 2 then (if isLeap y then 29 else 28)
  else if mo = 4 || mo = 6 || mo = 9 || mo = 11 then 30
  else 31

/-- The values `datetime.strptime('%Y-%m-%d %H:%M:%S')` accepts: Python's
`datetime` requires `MINYEAR = 1 <= year <= MAXYEAR = 9999`, a valid
calendar date, and in-range time-of-day fields. -/
def NaiveDT.valid (t : NaiveDT) : Bool :=
  1 ≤ t.year && t.year ≤ 9999 &&
  1 ≤ t.month && t.month ≤ 12 &&
  1 ≤ t.day && t.day ≤ daysInMonth t.year t.month &&
  t.hour ≤ 23 && t.minute ≤ 59 && t.second ≤ 59

/-- Key of a datetime for lexicographic comparison. -/
def NaiveDT.key (t : NaiveDT) : Nat :=
  ((((t.year * 13 + t.month) * 32 + t.day) * 24 + t.hour) * 60 + t.minute)
    * 60 + t.second

/-- `a <= b` on datetimes (same fixed offset on both sides). -/
def NaiveDT.le (a b : NaiveDT) : Bool :=
  a.key ≤ b.key

/-- `datetime + timedelta(days=1)`: `none` models the `OverflowError` Python
raises when the result would leave the representable range
(`year > MAXYEAR = 9999`). -/
def addOneDay (t : NaiveDT) : Option NaiveDT :=
  if t.day < daysInMonth t.year t.month then
    some { t with day := t.day + 1 }
  else if t.month < 12 then
    some { t with month := t.month + 1, day := 1 }
  else if t.year < 9999 then
    some { t with year := t.year + 1, month := 1, day := 1 }
  else none

/-! ## The `at` command pattern (`AT_TIME_PATTERN`, `AT_ARGS_PATTERN`)

`AT_ARGS_PATTERN` is `(date-time|time-date|time|date)\s+(?P<text>\S+.*)`
with `TIME_PATTERN = \d{2}:\d{2}(?::\d{2})?` and
`DATE_PATTERN = \d{4}-\d{2}-\d{2}`.  The four alternatives are tried in
order, and the optional seconds group is matched greedily and undone when
the rest of the pattern fails. -/

/-- Exactly two digits (`\d{2}`). -/
def digits2 (cs : List Char) : Option (Nat × List Char) :=
  match cs with
  | c1 :: c2 :: r =>
    if c1.isDigit && c2.isDigit then
      some (digitVal c1 * 10 + digitVal c2, r)
    else none
  | _ => none

/-- Exactly four digits (`\d{4}`). -/
def digits4 (cs : List Char) : Option (Nat × List Char) :=
  match cs with
  | c1 :: c2 :: c3 :: c4 :: r =>
    if c1.isDigit && c2.isDigit && c3.isDigit && c4.isDigit then
      some (digitVal c1 * 1000 + digitVal c2 * 100 + digitVal c3 * 10
        + digitVal c4, r)
    else none
  | _ => none

/-- A literal character. -/
def lit (c : Char) (cs : List Char) : Option (List Char) :=
  match cs with
  | x :: r => if x = c then some r else none
  | [] => none

/-- `DATE_PATTERN = \d{4}-\d{2}-\d{2}`, as `(year, month, day)`. -/
def matchDate (cs : List Char) : Option ((Nat × Nat × Nat) × List Char) :=
  match digits4 cs with
  | none => none
  | some (y, r1) =>
    match lit '-' r1 with
    | none => none
    | some r2 =>
      match digits2 r2 with
      | none => none
      | some (mo, r3) =>
        match lit '-' r3 with
        | none => none
        | some r4 =>
          match digits2 r4 with
          | none => none
          | some (d, r5) => some ((y, mo, d), r5)

/-- The mandatory `\d{2}:\d{2}` prefix of `TIME_PATTERN`. -/
def matchHM (cs : List Char) : Option ((Nat × Nat) × List Char) :=
  match digits2 cs with
  | none => none
  | some (h, r1) =>
    match lit ':' r1 with
    | none => none
    | some r2 =>
      match digits2 r2 with
      | none => none
      | some (mi, r3) => some ((h, mi), r3)

/-- The optional seconds group `(?::\d{2})?` of `TIME_PATTERN`. -/
def optSecs (cs : List Char) : Option (Nat × List Char) :=
  match lit ':' cs with
  | none => none
  | some r1 =>
    match digits2 r1 with
    | none => none
    | some (s, r2) => some (s, r2)

/-- The argument shape matched by `AT_TIME_PATTERN`, with the `hh:mm` time
normalised to `hh:mm:00` (the code pads a 5-character time with `:00`). -/
inductive AtSpec where
  | dateTime (date : Nat × Nat × Nat) (time : Nat × Nat × Nat)
  | timeDate (time : Nat × Nat × Nat) (date : Nat × Nat × Nat)
  | timeOnly (time : Nat × Nat × Nat)
  | dateOnly (date : Nat × Nat × Nat)
deriving DecidableEq, Repr

/-- After a complete `TIME_PATTERN ' ' DATE_PATTERN` prefix, finish the
`t_d` alternative with the `\s+text` tail. -/
def tdRest (time : Nat × Nat × Nat) (cs : List Char) :
    Option (AtSpec × List Char) :=
  match lit ' ' cs with
  | none => none
  | some r1 =>
    match matchDate r1 with
    | none => none
    | some (dv, r2) =>
      (tailParse r2).map (fun t => (AtSpec.timeDate time dv, t))

/-- The `d_t` alternative `DATE_PATTERN ' ' TIME_PATTERN` with tail. -/
def shapeDT (cs : List Char) : Option (AtSpec × List Char) :=
  match matchDate cs with
  | none => none
  | some (dv, r1) =>
    match lit ' ' r1 with
    | none => none
    | some r2 =>
      match matchHM r2 with
      | none => none
      | some ((h, mi), r3) =>
        ((optSecs r3).bind (fun p =>
          (tailParse p.2).map
            (fun t => (AtSpec.dateTime dv (h, mi, p.1), t)))).orElse
          (fun _ => (tailParse r3).map
            (fun t => (AtSpec.dateTime dv (h, mi, 0), t)))

/-- The `t_d` alternative `TIME_PATTERN ' ' DATE_PATTERN` with tail. -/
def shapeTD (cs : List Char) : Option (AtSpec × List Char) :=
  match matchHM cs with
  | none => none
  | some ((h, mi), r1) =>
    ((optSecs r1).bind (fun p => tdRest (h, mi, p.1) p.2)).orElse
      (fun _ => tdRest (h, mi, 0) r1)

/-- The `t` alternative (time only) with tail. -/
def shapeT (cs : List Char) : Option (AtSpec × List Char) :=
  match matchHM cs with
  | none => none
  | some ((h, mi), r1) =>
    ((optSecs r1).bind (fun p =>
      (tailParse p.2).map
        (fun t => (AtSpec.timeOnly (h, mi, p.1), t)))).orElse
      (fun _ => (tailParse r1).map (fun t => (AtSpec.timeOnly (h, mi, 0), t)))

/-- The `d` alternative (date only) with tail. -/
def shapeD (cs : List Char) : Option (AtSpec × List Char) :=
  match matchDate cs with
  | none => none
  | some (dv, r1) =>
    (tailParse r1).map (fun t => (AtSpec.dateOnly dv, t))

/-- `AT_RE.match` on the argument line: the four alternatives in the order
of `AT_TIME_PATTERN`, each followed by `\s+(?P<text>\S+.*)`. -/
def matchAt (cs : List Char) : Option (AtSpec × List Char) :=
  ((shapeDT cs).orElse (fun _ => shapeTD cs)).orElse
    (fun _ => (shapeT cs).orElse (fun _ => shapeD cs))

/-- The candidate local instant the code composes from the matched shape:
missing parts are taken from `now` (`now.strftime` of the date and of the
time-of-day). -/
def composeAt (spec : AtSpec) (now : NaiveDT) : NaiveDT :=
  match spec with
  | .dateTime (y, mo, d) (h, mi, s) => ⟨y, mo, d, h, mi, s⟩
  | .timeDate (h, mi, s) (y, mo, d) => ⟨y, mo, d, h, mi, s⟩
  | .timeOnly (h, mi, s) => ⟨now.year, now.month, now.day, h, mi, s⟩
  | .dateOnly (y, mo, d) => ⟨y, mo, d, now.hour, now.minute, now.second⟩

/-- Whether the matched shape was the time-only alternative. -/
def AtSpec.isTimeOnly (spec : AtSpec) : Bool :=
  match spec with
  | .timeOnly _ => true
  | _ => false

/-- How `parse_at_time` can fail: `parseError` models the `ValueError` the
function raises (no match, invalid calendar value, or a past non-time-only
instant); `overflowError` models the uncaught `OverflowError` of
`requested_at + timedelta(days=1)` at the calendar maximum. -/
inductive AtError where
  | parseError
  | overflowError
deriving DecidableEq, Repr

/-- The resolution stage of `parse_at_time` after the regex match: compose
the candidate instant from the shape and `now`, validate it (`strptime`),
compare with `now`, and roll a past time-only instant one day forward. -/
def resolveAt (spec : AtSpec) (text : String) (now : NaiveDT) :
    Except AtError (NaiveDT × String) :=
  if (composeAt spec now).valid then
    if (composeAt spec now).le now then
      if spec.isTimeOnly then
        match addOneDay (composeAt spec now) with
        | some req2 => .ok (req2, text)
        | none => .error .overflowError
      else .error .parseError
    else .ok (composeAt spec now, text)
  else .error .parseError

/-- `backend.parse_at_time`: match `AT_ARGS_PATTERN`, compose the candidate
instant, validate it with `strptime`, and either return it, roll a past
time-only instant to the next day, or fail. -/
def parse_at_time (line : String) (now : NaiveDT) :
    Except AtError (NaiveDT × String) :=
  match matchAt line.toList with
  | none => .error .parseError
  | some (spec, text) => resolveAt spec text.asString now

/-! ## Reminders and the CSV store (`backend.py`)

The file system is modelled as an optional file content (`none` = the file
does not exist).  `save_reminders` produces the exact character content the
Python `csv.writer` (delimiter `,`, quotechar `"`, `QUOTE_ALL`, default line
terminator `\r\n`) writes; `load_reminders` re-parses it. -/

/-- `backend.Reminder` (named tuple `timestamp, destination, nick, message`). -/
structure Reminder where
  timestamp : Int
  destination : String
  nick : String
  message : String
deriving DecidableEq, Repr

/-- Decimal rendering of an integer (the characters of Python `str(int)`). -/
def intRepr (i : Int) : List Char :=
  match i with
  | .ofNat n => digitsOf n
  | .negSucc n => '-' :: digitsOf (n + 1)

/-- `backend.serialize`: the 4-field CSV row of a reminder, with the
timestamp rendered by `str`. -/
def serialize (r : Reminder) : List (List Char) :=
  [intRepr r.timestamp, r.destination.toList, r.nick.toList,
    r.message.toList]

/-- Double every quote character (the `doublequote` escaping of the
`csv` module). -/
def escQuotes : List Char → List Char
  | [] => []
  | c :: cs =>
    if c = '"' then '"' :: '"' :: escQuotes cs else c :: escQuotes cs

/-- A fully quoted CSV field (`QUOTE_ALL`). -/
def quoteField (f : List Char) : List Char :=
  '"' :: (escQuotes f ++ ['"'])

/-- The comma-joined quoted fields of one row. -/
def rowCore : List (List Char) → List Char
  | [] => []
  | [f] => quoteField f
  | f :: fs => quoteField f ++ ',' :: rowCore fs

/-- One written CSV record, terminated by `\r\n`. -/
def csvRow (fields : List (List Char)) : List Char :=
  rowCore fields ++ ['\r', '\n']

/-- The full file content `backend.save_reminders` writes (truncate and
rewrite: one quoted record per reminder). -/
def saveContent (rs : List Reminder) : List Char :=
  (rs.map (fun r => csvRow (serialize r))).flatten

/-- `backend.save_reminders`, as the file content it leaves behind. -/
def save_reminders (rs : List Reminder) : String :=
  (saveContent rs).asString

/-- Scan the inside of a quoted CSV field: a doubled quote is a literal
quote, a single quote closes the field. -/
def scanQuoted : List Char → List Char × List Char
  | [] => ([], [])
  | c :: cs =>
    if c = '"' then
      match cs with
      | [] => ([], [])
      | c2 :: cs2 =>
        if c2 = '"' then
          let p := scanQuoted cs2
          ('"' :: p.1, p.2)
        else ([], c2 :: cs2)
    else
      let p := scanQuoted cs
      (c :: p.1, p.2)

/-- Scan an unquoted CSV field (up to a delimiter or record end). -/
def scanPlain : List Char → List Char × List Char
  | [] => ([], [])
  | c :: cs =>
    if c = ',' || c = '\r' || c = '\n' then ([], c :: cs)
    else
      let p := scanPlain cs
      (c :: p.1, p.2)

/-- One CSV field: quoted if it starts with the quote character. -/
def parseField (cs : List Char) : List Char × List Char :=
  match cs with
  | [] => ([], [])
  | c :: rest => if c = '"' then scanQuoted rest else scanPlain (c :: rest)

/-- The fields of one CSV record and the remaining content (after the
record terminator).  The fuel bounds the number of fields and is always
called with at least the length of the input. -/
def parseRecord : Nat → List Char → List String × List Char
  | 0, cs => ([], cs)
  | fuel + 1, cs =>
    let p := parseField cs
    match p.2 with
    | [] => ([p.1.asString], [])
    | c :: r2 =>
      if c = ',' then
        let q := parseRecord fuel r2
        (p.1.asString :: q.1, q.2)
      else if c = '\r' then
        match r2 with
        | [] => ([p.1.asString], [])
        | c2 :: r3 =>
          if c2 = '\n' then ([p.1.asString], r3)
          else ([p.1.asString], c2 :: r3)
      else if c = '\n' then ([p.1.asString], r2)
      else
        let q := parseRecord fuel r2
        (p.1.asString :: q.1, q.2)

/-- All records of a CSV file content. -/
def parseRows : Nat → List Char → List (List String)
  | 0, _ => []
  | _, [] => []
  | fuel + 1, cs =>
    let p := parseRecord (fuel + 1) cs
    p.1 :: parseRows fuel p.2

/-- The records of a file content, with enough fuel for the whole input. -/
def csvRecords (cs : List Char) : List (List String) :=
  parseRows (cs.length + 1) cs

/-! Python `int(str)` on a string field. -/

/-- Strip leading and trailing whitespace (`int` ignores surrounding
whitespace). -/
def trimWs (cs : List Char) : List Char :=
  (((cs.dropWhile isPySpace).reverse).dropWhile isPySpace).reverse

/-- Digits with optional single underscores between digits, after the first
digit has been consumed. -/
def digitsCore : List Char → Nat → Option Nat
  | [], acc => some acc
  | c :: cs, acc =>
    if c = '_' then
      match cs with
      | [] => none
      | c2 :: cs2 =>
        if c2.isDigit then digitsCore cs2 (acc * 10 + digitVal c2) else none
    else if c.isDigit then digitsCore cs (acc * 10 + digitVal c) else none

/-- An unsigned decimal integer literal (digits, with single underscores
allowed between digits). -/
def pyIntNat (cs : List Char) : Option Nat :=
  match cs with
  | c :: rest => if c.isDigit then digitsCore rest (digitVal c) else none
  | [] => none

/-- The optional sign and digits of an integer literal. -/
def pyIntSigned : List Char → Option Int
  | [] => none
  | c :: rest =>
    if c = '-' then (pyIntNat rest).map (fun n => -(n : Int))
    else if c = '+' then (pyIntNat rest).map (fun n => (n : Int))
    else (pyIntNat (c :: rest)).map (fun n => (n : Int))

/-- Python `int(string)`: optional surrounding whitespace, optional sign,
decimal digits; `none` models the `ValueError` on anything else. -/
def pyInt (cs : List Char) : Option Int :=
  pyIntSigned (trimWs cs)

/-- One row of the reader loop: `Reminder(int(timestamp), destination,
nick, message) for timestamp, destination, nick, message, *args in reader`.
A row needs at least four fields (extra fields are ignored); `none` models
the uncaught exception on a short row or a non-integer timestamp. -/
def mkRow (row : List String) : Option Reminder :=
  match row with
  | t :: dest :: nick :: msg :: _ =>
    (pyInt t.toList).map (fun n => ⟨n, dest, nick, msg⟩)
  | _ => none

/-- The reminder list built from parsed records, in file order; `none` as
soon as one record is malformed (the uncaught exception aborts the list
comprehension). -/
def loadRows : List (List String) → Option (List Reminder)
  | [] => some []
  | row :: rows =>
    (mkRow row).bind (fun r => (loadRows rows).map (fun rs => r :: rs))

/-- `backend.load_reminders` on the modelled file system: opening with mode
`a+` creates an empty file when absent; the result is the content the file
has afterwards and the loaded reminders (`none` models the uncaught
exception on a malformed record). -/
def load_reminders (file : Option String) :
    String × Option (List Reminder) :=
  let content := file.getD ""
  (content, loadRows (csvRecords content.toList))

/-! ## The delivery sweep (`plugin.reminder_job`)

The IRC world state the sweep consults is modelled by the channel
membership map (`bot.channels` with each channel's `users`) and the known
direct recipients (`bot.users`). -/

/-- The destination-availability state of the bot.  Channel member sets and
the user list hold the identifiers the host messaging runtime exposes; the
`tools.Identifier` casemapping applied to `reminder.nick` before the
membership test is that runtime's lookup normalisation and is modelled by
plain membership in the normalised member set. -/
structure IrcState where
  channels : List (String × List String)
  users : List String
deriving Repr

/-- `reminder.destination in bot.channels` and the channel's member set. -/
def lookupChannel (st : IrcState) (dest : String) : Option (List String) :=
  (st.channels.find? (fun p => p.1 = dest)).map (fun p => p.2)

/-- A message the sweep sends: `bot.reply(message, destination, nick)` for a
channel delivery, `bot.say(message, destination)` for a direct delivery. -/
inductive Delivery where
  | reply (message destination nick : String)
  | say (message destination : String)
deriving DecidableEq, Repr

/-- The classification pass of `reminder_job` over the reminder list, in
registry order: the retained reminders (in order) and the deliveries made
(in order). -/
def sweep (now : Int) (st : IrcState) :
    List Reminder → List Reminder × List Delivery
  | [] => ([], [])
  | r :: rs =>
    let p := sweep now st rs
    if r.timestamp > now then
      (r :: p.1, p.2)
    else
      match lookupChannel st r.destination with
      | some members =>
        if r.nick ∈ members then
          (p.1, Delivery.reply r.message r.destination r.nick :: p.2)
        else (r :: p.1, p.2)
      | none =>
        if r.destination ∈ st.users then
          (p.1, Delivery.say r.message r.destination :: p.2)
        else (r :: p.1, p.2)

/-- The observable outcome of one run of `reminder_job`: the registry
contents afterwards, the deliveries, the content written to the store file
(if any) and the number of store writes. -/
structure SweepOutcome where
  registry : List Reminder
  sent : List Delivery
  savedFile : Option String
  saveCount : Nat
deriving Repr

/-- `plugin.reminder_job` (after the connectedness gate): classify every
reminder, then persist the kept list if and only if its length differs from
the original length. -/
def reminder_job (now : Int) (st : IrcState) (reminders : List Reminder) :
    SweepOutcome :=
  let p := sweep now st reminders
  if p.1.length ≠ reminders.length then
    ⟨p.1, p.2, some (save_reminders p.1), 1⟩
  else
    ⟨reminders, p.2, none, 0⟩

/-! ## Legacy migration (`plugin.migrate_builtin`, `plugin.configure`) -/

/-- The lines Python file iteration yields (without their terminating
newline): split on `\n`, a trailing newline producing no extra line. -/
def splitLinesAux : Nat → List Char → List (List Char)
  | 0, _ => []
  | fuel + 1, cs =>
    if cs = [] then []
    else
      let line := cs.takeWhile (fun c => c ≠ '\n')
      line :: splitLinesAux fuel (cs.drop (line.length + 1))

def splitLines (cs : List Char) : List (List Char) :=
  splitLinesAux (cs.length + 1) cs

/-- `line.split('\t', 3)`: split on the first three tab characters; `none`
when the line has fewer than three tabs (the 4-tuple unpacking fails). -/
def splitTab3 (cs : List Char) :
    Option (List Char × List Char × List Char × List Char) :=
  let f1 := cs.takeWhile (fun c => c ≠ '\t')
  let r1 := cs.drop (f1.length + 1)
  if f1.length = cs.length then none
  else
    let f2 := r1.takeWhile (fun c => c ≠ '\t')
    let r2 := r1.drop (f2.length + 1)
    if f2.length = r1.length then none
    else
      let f3 := r2.takeWhile (fun c => c ≠ '\t')
      let r3 := r2.drop (f3.length + 1)
      if f3.length = r2.length then none
      else some (f1, f2, f3, r3)

/-- `message.rstrip('\n')`. -/
def rstripNl (cs : List Char) : List Char :=
  ((cs.reverse).dropWhile (fun c => c = '\n')).reverse

/-- The unsigned part of a plain decimal float literal: digits with an
optional `.` fractional part, truncated (the integer part). -/
def pyFloatCore (l : List Char) : Option Nat :=
  let ds := l.takeWhile Char.isDigit
  let rest := l.drop ds.length
  if ds = [] then none
  else
    match rest with
    | [] => some (natOfDigits ds)
    | c :: frac =>
      if c = '.' && frac.all Char.isDigit then some (natOfDigits ds)
      else none

/-- The optional sign and magnitude of a float literal, truncated. -/
def pyFloatSigned : List Char → Option Int
  | [] => none
  | c :: rest =>
    if c = '-' then (pyFloatCore rest).map (fun n => -(n : Int))
    else if c = '+' then (pyFloatCore rest).map (fun n => (n : Int))
    else (pyFloatCore (c :: rest)).map (fun n => (n : Int))

/-- `int(float(unixtime))` on a legacy timestamp field, modelled for plain
decimal literals: optional sign and digits with an optional fractional
part, truncated toward zero (the claim's fractional-second truncation). -/
def pyFloatTrunc (cs : List Char) : Option Int :=
  pyFloatSigned (trimWs cs)

/-- One legacy line: `unixtime \t channel \t nick \t message`, with the
timestamp truncated of its fractional seconds and the trailing newline
stripped from the message. -/
def parseLegacyLine (line : List Char) : Option Reminder :=
  match splitTab3 line with
  | none => none
  | some (t, ch, nick, msg) =>
    (pyFloatTrunc t).map
      (fun n => ⟨n, ch.asString, nick.asString, (rstripNl msg).asString⟩)

/-- The reminders parsed from a list of legacy lines, in order; `none` as
soon as one line is malformed (the uncaught exception aborts the loop). -/
def importLinesAux : List (List Char) → Option (List Reminder)
  | [] => some []
  | line :: ls =>
    (parseLegacyLine line).bind
      (fun r => (importLinesAux ls).map (fun rs => r :: rs))

/-- The reminders parsed from every legacy line, in file order. -/
def importLines (fromContent : String) : Option (List Reminder) :=
  importLinesAux (splitLines fromContent.toList)

/-- `plugin.migrate_builtin`: load the current store, append every legacy
reminder, save, and return the number of lines read; `none` models an
uncaught exception (malformed store or malformed legacy line). -/
def migrate_builtin (fromContent toContent : String) :
    Option (String × Nat) :=
  match (load_reminders (some toContent)).2 with
  | none => none
  | some rs =>
    match importLines fromContent with
    | none => none
    | some imported =>
      some (save_reminders (rs ++ imported),
        (splitLines fromContent.toList).length)

/-- The migration part of `plugin.configure`: when the legacy file exists,
migrate it and rename it to its backup name; otherwise do nothing.  The
result is `(count migrated, rename performed, new store content)`. -/
def configure_migration (legacy : Option String) (store : String) :
    Option (Nat × Bool × String) :=
  match legacy with
  | none => some (0, false, store)
  | some legacyContent =>
    (migrate_builtin legacyContent store).map
      (fun p => (p.2, true, p.1))

/-! ## Rendering of `in` component sequences

Used to state the optional-separator law (claim C10): a valid component
sequence is a non-empty subset of the `d`, `h`, `m`, `s` components in that
order, rendered with a chosen separator between consecutive components and
a single mandatory space before the message. -/

/-- One rendered duration component `<n><u>`. -/
def compRender (n : Nat) (u : Char) : List Char :=
  digitsOf n ++ [u]

/-- An optional non-leading component, preceded by the separator when
present. -/
def optPart (sep : List Char) (x : Option Nat) (u : Char) : List Char :=
  match x with
  | none => []
  | some n => sep ++ compRender n u

/-- The rendered input after the `m` component position: an optional `s`
component, then the mandatory space and the message. -/
def restS (sep : List Char) (s : Option Nat) (msg : List Char) : List Char :=
  optPart sep s 's' ++ ' ' :: msg

/-- The rendered input after the `h` component position. -/
def restM (sep : List Char) (m s : Option Nat) (msg : List Char) :
    List Char :=
  optPart sep m 'm' ++ restS sep s msg

/-- The rendered input after the `d` component position. -/
def restH (sep : List Char) (h m s : Option Nat) (msg : List Char) :
    List Char :=
  optPart sep h 'h' ++ restM sep m s msg

/-- A full `in` argument line for a valid component sequence: the present
components in grammar order, `sep` between consecutive components (the
first has no leading separator), one mandatory space, and the message. -/
def inRender (sep : List Char) (d h m s : Option Nat) (msg : List Char) :
    List Char :=
  match d, h, m, s with
  | some a, h, m, s => compRender a 'd' ++ restH sep h m s msg
  | none, some b, m, s => compRender b 'h' ++ restM sep m s msg
  | none, none, some e, s => compRender e 'm' ++ restS sep s msg
  | none, none, none, some f => compRender f 's' ++ ' ' :: msg
  | none, none, none, none => ' ' :: msg

/-! ## Helper lemmas -/

theorem orElse_of_eq_some {α : Type} {x : Option α} {v : α}
    (f : Unit → Option α) (h : x = some v) : x.orElse f = some v := by
  subst h; rfl

theorem orElse_of_eq_none {α : Type} {x : Option α}
    (f : Unit → Option α) (h : x = none) : x.orElse f = f () := by
  subst h; rfl

theorem orElse_isSome_right {α : Type} {x : Option α} {f : Unit → Option α}
    (h : (f ()).isSome) : (x.orElse f).isSome := by
  cases x with
  | none => simpa [Option.orElse] using h
  | some v => simp [Option.orElse]

theorem orElse_of_isSome {α : Type} {x : Option α} (f : Unit → Option α)
    (h : x.isSome) : x.orElse f = x := by
  cases x with
  | none => simp at h
  | some v => rfl

theorem toList_asString (l : List Char) : (l.asString).toList = l := rfl

theorem digitVal_digitChar {m : Nat} (h : m < 10) :
    digitVal (digitChar m) = m := by
  interval_cases m <;> decide

theorem digitChar_isDigit {m : Nat} (h : m < 10) :
    (digitChar m).isDigit = true := by
  interval_cases m <;> decide

theorem digit_not_space {c : Char} (h : c.isDigit = true) :
    isPySpace c = false := by
  by_contra hn
  have hs : isPySpace c = true := by
    cases he : isPySpace c with
    | false => exact absurd he hn
    | true => rfl
  simp only [isPySpace, Bool.or_eq_true, decide_eq_true_eq] at hs
  rcases hs with ((((h1 | h1) | h1) | h1) | h1) | h1 <;>
    (subst h1; exact absurd h (by decide))

theorem natOfDigits_append_one (ds : List Char) (c : Char) :
    natOfDigits (ds ++ [c]) = 10 * natOfDigits ds + digitVal c := by
  simp [natOfDigits, List.foldl_append]
  omega

theorem digitsOfAux_spec :
    ∀ fuel n : Nat, n < fuel →
      digitsOfAux fuel n ≠ [] ∧
      (∀ c ∈ digitsOfAux fuel n, c.isDigit = true) ∧
      natOfDigits (digitsOfAux fuel n) = n := by
  intro fuel
  induction fuel with
  | zero => intro n h; omega
  | succ fuel ih =>
    intro n h
    by_cases h10 : n < 10
    · simp only [digitsOfAux, if_pos h10]
      refine ⟨by simp, ?_, ?_⟩
      · intro c hc
        rw [List.mem_singleton] at hc
        subst hc
        exact digitChar_isDigit h10
      · simp [natOfDigits, digitVal_digitChar h10]
    · have hlt : n / 10 < fuel := by
        have : n / 10 < n := Nat.div_lt_self (by omega) (by decide)
        omega
      obtain ⟨hne, hdig, hval⟩ := ih (n / 10) hlt
      simp only [digitsOfAux, if_neg h10]
      refine ⟨by simp, ?_, ?_⟩
      · intro c hc
        rw [List.mem_append] at hc
        rcases hc with hc | hc
        · exact hdig c hc
        · rw [List.mem_singleton] at hc
          subst hc
          exact digitChar_isDigit (Nat.mod_lt _ (by decide))
      · rw [natOfDigits_append_one, hval,
          digitVal_digitChar (Nat.mod_lt _ (by decide))]
        omega

theorem digitsOf_ne_nil (n : Nat) : digitsOf n ≠ [] :=
  (digitsOfAux_spec (n + 1) n (by omega)).1

theorem digitsOf_all_digit (n : Nat) :
    ∀ c ∈ digitsOf n, c.isDigit = true :=
  (digitsOfAux_spec (n + 1) n (by omega)).2.1

theorem natOfDigits_digitsOf (n : Nat) : natOfDigits (digitsOf n) = n :=
  (digitsOfAux_spec (n + 1) n (by omega)).2.2

theorem splitDigits_of_digits {ds : List Char}
    (hd : ∀ c ∈ ds, c.isDigit = true) {u : Char} (hu : u.isDigit = false)
    (r : List Char) : splitDigits (ds ++ u :: r) = (ds, u :: r) := by
  induction ds with
  | nil => simp [splitDigits, hu]
  | cons c cs ih =>
    have hc : c.isDigit = true := hd c (List.mem_cons_self c cs)
    simp only [List.cons_append, splitDigits, hc, if_true, List.append_eq]
    rw [ih (fun x hx => hd x (List.mem_cons_of_mem c hx))]

theorem munchDigits_digitsOf (n : Nat) {u : Char} (hu : u.isDigit = false)
    (r : List Char) :
    munchDigits (digitsOf n ++ u :: r) = some (n, u :: r) := by
  have h1 := natOfDigits_digitsOf n
  rw [munchDigits, splitDigits_of_digits (digitsOf_all_digit n) hu]
  obtain ⟨c, t, hct⟩ := List.exists_cons_of_ne_nil (digitsOf_ne_nil n)
  rw [hct] at h1 ⊢
  simp [h1]

theorem comp_hit {u : Char} (hu : u.isDigit = false) (n : Nat)
    (r : List Char) : comp u (digitsOf n ++ u :: r) = some (n, r) := by
  rw [comp, munchDigits_digitsOf n hu]
  simp

theorem comp_miss {u v : Char} (hv : v.isDigit = false) (hne : v ≠ u)
    (n : Nat) (r : List Char) : comp u (digitsOf n ++ v :: r) = none := by
  rw [comp, munchDigits_digitsOf n hv]
  simp [hne]

theorem comp_head_not_digit {u c : Char} (h : c.isDigit = false)
    (r : List Char) : comp u (c :: r) = none := by
  rw [comp, munchDigits]
  simp [splitDigits, h]

theorem optComp_hit_space {u : Char} (hu : u.isDigit = false) (n : Nat)
    (r : List Char) :
    optComp u (' ' :: (digitsOf n ++ u :: r)) = some (n, r) := by
  have hsp : isPySpace ' ' = true := by decide
  simp only [optComp, hsp, if_true]
  exact comp_hit hu n r

theorem optComp_hit_nospace {u : Char} (hu : u.isDigit = false) (n : Nat)
    (r : List Char) : optComp u (digitsOf n ++ u :: r) = some (n, r) := by
  obtain ⟨c, t, hct⟩ := List.exists_cons_of_ne_nil (digitsOf_ne_nil n)
  have hcd : c.isDigit = true := by
    exact digitsOf_all_digit n c (by rw [hct]; exact List.mem_cons_self c t)
  have hcs : isPySpace c = false := digit_not_space hcd
  rw [hct, List.cons_append]
  simp only [optComp, hcs, if_false]
  rw [← List.cons_append, ← hct]
  exact comp_hit hu n r

theorem optComp_miss_space {u : Char} {rest : List Char}
    (h : comp u rest = none) : optComp u (' ' :: rest) = none := by
  have hsp : isPySpace ' ' = true := by decide
  simp only [optComp, hsp, if_true]
  exact h

theorem optComp_miss_nospace {u c : Char} {r : List Char}
    (hc : isPySpace c = false) (h : comp u (c :: r) = none) :
    optComp u (c :: r) = none := by
  simp only [optComp, hc, if_false]
  exact h

theorem optStage_hit {u : Char} {next : Nat → List Char → Option (Nat × List Char)}
    {cs : List Char} {n : Nat} {r : List Char}
    (h : optComp u cs = some (n, r)) (hs : (next n r).isSome) :
    optStage u next cs = next n r := by
  rw [optStage, h]
  show (next n r).orElse _ = next n r
  exact orElse_of_isSome _ hs

theorem optStage_miss {u : Char}
    {next : Nat → List Char → Option (Nat × List Char)} {cs : List Char}
    (h : optComp u cs = none) : optStage u next cs = next 0 cs := by
  rw [optStage, h]
  rfl

theorem optStage_isSome {u : Char}
    {next : Nat → List Char → Option (Nat × List Char)} {cs : List Char}
    (h : (next 0 cs).isSome) : (optStage u next cs).isSome :=
  orElse_isSome_right h

theorem tailParse_space_cons {c : Char} (hc : isPySpace c = false)
    (t : List Char) : (tailParse (' ' :: c :: t)).isSome := by
  have hsp : isPySpace ' ' = true := by decide
  simp [tailParse, hsp, List.dropWhile_cons, hc]

theorem inFinish_isSome (d h m s : Nat) {c : Char}
    (hc : isPySpace c = false) (t : List Char) :
    (inFinish d h m s (' ' :: c :: t)).isSome := by
  have h1 := tailParse_space_cons hc t
  rw [inFinish]
  cases h2 : tailParse (' ' :: c :: t) with
  | none => rw [h2] at h1; simp at h1
  | some v => simp

theorem inFromS_isSome (d h m : Nat) {c : Char} (hc : isPySpace c = false)
    (t : List Char) : (inFromS d h m (' ' :: c :: t)).isSome :=
  optStage_isSome (inFinish_isSome d h m 0 hc t)

theorem inFromM_isSome (d h : Nat) {c : Char} (hc : isPySpace c = false)
    (t : List Char) : (inFromM d h (' ' :: c :: t)).isSome :=
  optStage_isSome (inFromS_isSome d h 0 hc t)

theorem inFromH_isSome (d : Nat) {c : Char} (hc : isPySpace c = false)
    (t : List Char) : (inFromH d (' ' :: c :: t)).isSome :=
  optStage_isSome (inFromM_isSome d 0 hc t)

theorem optComp_none_sp {u v : Char} (hv : v.isDigit = false) (hne : v ≠ u)
    (n : Nat) (rest : List Char) :
    optComp u (' ' :: (digitsOf n ++ v :: rest)) = none :=
  optComp_miss_space (comp_miss hv hne n rest)

theorem optComp_none_ns {u v : Char} (hv : v.isDigit = false) (hne : v ≠ u)
    (n : Nat) (rest : List Char) :
    optComp u (digitsOf n ++ v :: rest) = none := by
  obtain ⟨c, t, hct⟩ := List.exists_cons_of_ne_nil (digitsOf_ne_nil n)
  have hcd : c.isDigit = true := by
    exact digitsOf_all_digit n c (by rw [hct]; exact List.mem_cons_self c t)
  rw [hct, List.cons_append]
  refine optComp_miss_nospace (digit_not_space hcd) ?_
  rw [← List.cons_append, ← hct]
  exact comp_miss hv hne n rest

theorem shapeDays_comp {cs r : List Char} {n : Nat}
    (h : comp 'd' cs = some (n, r)) : shapeDays cs = inFromH n r := by
  rw [shapeDays, h]

theorem shapeDays_none {cs : List Char} (h : comp 'd' cs = none) :
    shapeDays cs = none := by
  rw [shapeDays, h]

theorem shapeHours_comp {cs r : List Char} {n : Nat}
    (h : comp 'h' cs = some (n, r)) : shapeHours cs = inFromM 0 n r := by
  rw [shapeHours, h]

theorem shapeHours_none {cs : List Char} (h : comp 'h' cs = none) :
    shapeHours cs = none := by
  rw [shapeHours, h]

theorem shapeMinutes_comp {cs r : List Char} {n : Nat}
    (h : comp 'm' cs = some (n, r)) : shapeMinutes cs = inFromS 0 0 n r := by
  rw [shapeMinutes, h]

theorem orElse_isSome_left {α : Type} {x : Option α} {f : Unit → Option α}
    (h : x.isSome) : (x.orElse f).isSome := by
  cases x with
  | none => simp at h
  | some v => simp [Option.orElse]

theorem parse_in_via_days {line : String} {v : Option (Nat × List Char)}
    (h1 : shapeDays line.toList = v) (hv : v.isSome) :
    parse_in_delta line = v.map (fun p => (p.1, p.2.asString)) := by
  have hout : (((shapeDays line.toList).orElse
      fun _ => shapeHours line.toList).orElse
      fun _ => (shapeMinutes line.toList).orElse
        fun _ => shapeSeconds line.toList) = v := by
    refine (orElse_of_isSome _ (orElse_isSome_left (by rw [h1]; exact hv))).trans ?_
    exact (orElse_of_isSome _ (by rw [h1]; exact hv)).trans h1
  rw [parse_in_delta, hout]

theorem parse_in_via_hours {line : String} {v : Option (Nat × List Char)}
    (h0 : shapeDays line.toList = none) (h1 : shapeHours line.toList = v)
    (hv : v.isSome) :
    parse_in_delta line = v.map (fun p => (p.1, p.2.asString)) := by
  have hin : ((shapeDays line.toList).orElse
      fun _ => shapeHours line.toList) = v :=
    (orElse_of_eq_none _ h0).trans h1
  have hout : (((shapeDays line.toList).orElse
      fun _ => shapeHours line.toList).orElse
      fun _ => (shapeMinutes line.toList).orElse
        fun _ => shapeSeconds line.toList) = v :=
    (orElse_of_isSome _ (by rw [hin]; exact hv)).trans hin
  rw [parse_in_delta, hout]

theorem parse_in_via_minutes {line : String} {v : Option (Nat × List Char)}
    (h0 : shapeDays line.toList = none) (h1 : shapeHours line.toList = none)
    (h2 : shapeMinutes line.toList = v) (hv : v.isSome) :
    parse_in_delta line = v.map (fun p => (p.1, p.2.asString)) := by
  have hin : ((shapeDays line.toList).orElse
      fun _ => shapeHours line.toList) = none :=
    (orElse_of_eq_none _ h0).trans h1
  have hout : (((shapeDays line.toList).orElse
      fun _ => shapeHours line.toList).orElse
      fun _ => (shapeMinutes line.toList).orElse
        fun _ => shapeSeconds line.toList) = v := by
    refine (orElse_of_eq_none _ hin).trans ?_
    exact (orElse_of_isSome _ (by rw [h2]; exact hv)).trans h2
  rw [parse_in_delta, hout]

theorem restS_chain (d h m : Nat) (s : Option Nat) {c : Char}
    (hc : isPySpace c = false) (t : List Char) :
    inFromS d h m (restS [' '] s (c :: t)) =
      inFromS d h m (restS [] s (c :: t)) ∧
    (inFromS d h m (restS [' '] s (c :: t))).isSome := by
  cases s with
  | none =>
    refine ⟨rfl, ?_⟩
    simp only [restS, optPart, List.nil_append]
    exact inFromS_isSome d h m hc t
  | some f =>
    have hfin := inFinish_isSome d h m f hc t
    have hr1 : restS [' '] (some f) (c :: t) =
        ' ' :: (digitsOf f ++ 's' :: ' ' :: c :: t) := by
      simp [restS, optPart, compRender]
    have hr2 : restS [] (some f) (c :: t) =
        digitsOf f ++ 's' :: ' ' :: c :: t := by
      simp [restS, optPart, compRender]
    have e1 : inFromS d h m (restS [' '] (some f) (c :: t)) =
        inFinish d h m f (' ' :: c :: t) := by
      rw [hr1, inFromS]
      exact optStage_hit (optComp_hit_space (by decide) f _) hfin
    have e2 : inFromS d h m (restS [] (some f) (c :: t)) =
        inFinish d h m f (' ' :: c :: t) := by
      rw [hr2, inFromS]
      exact optStage_hit (optComp_hit_nospace (by decide) f _) hfin
    exact ⟨by rw [e1, e2], by rw [e1]; exact hfin⟩

theorem restM_chain (d h : Nat) (m s : Option Nat) {c : Char}
    (hc : isPySpace c = false) (t : List Char) :
    inFromM d h (restM [' '] m s (c :: t)) =
      inFromM d h (restM [] m s (c :: t)) ∧
    (inFromM d h (restM [' '] m s (c :: t))).isSome := by
  cases m with
  | some e =>
    obtain ⟨eS, sS⟩ := restS_chain d h e s hc t
    have sSns : (inFromS d h e (restS [] s (c :: t))).isSome := by
      rw [← eS]; exact sS
    have hr1 : restM [' '] (some e) s (c :: t) =
        ' ' :: (digitsOf e ++ 'm' :: restS [' '] s (c :: t)) := by
      simp [restM, optPart, compRender]
    have hr2 : restM [] (some e) s (c :: t) =
        digitsOf e ++ 'm' :: restS [] s (c :: t) := by
      simp [restM, optPart, compRender]
    have e1 : inFromM d h (restM [' '] (some e) s (c :: t)) =
        inFromS d h e (restS [' '] s (c :: t)) := by
      rw [hr1, inFromM]
      exact optStage_hit (optComp_hit_space (by decide) e _) sS
    have e2 : inFromM d h (restM [] (some e) s (c :: t)) =
        inFromS d h e (restS [] s (c :: t)) := by
      rw [hr2, inFromM]
      exact optStage_hit (optComp_hit_nospace (by decide) e _) sSns
    exact ⟨by rw [e1, e2, eS], by rw [e1]; exact sS⟩
  | none =>
    have hrm : ∀ sep, restM sep none s (c :: t) = restS sep s (c :: t) := by
      intro sep; simp [restM, optPart]
    cases s with
    | none =>
      have hb : ∀ sep, restS sep (none : Option Nat) (c :: t) = ' ' :: c :: t := by
        intro sep; simp [restS, optPart]
      refine ⟨by rw [hrm, hrm, hb, hb], ?_⟩
      rw [hrm, hb]
      exact inFromM_isSome d h hc t
    | some f =>
      obtain ⟨eS, sS⟩ := restS_chain d h 0 (some f) hc t
      have hr1 : restS [' '] (some f) (c :: t) =
          ' ' :: (digitsOf f ++ 's' :: ' ' :: c :: t) := by
        simp [restS, optPart, compRender]
      have hr2 : restS [] (some f) (c :: t) =
          digitsOf f ++ 's' :: ' ' :: c :: t := by
        simp [restS, optPart, compRender]
      have e1 : inFromM d h (restM [' '] none (some f) (c :: t)) =
          inFromS d h 0 (restS [' '] (some f) (c :: t)) := by
        rw [hrm, inFromM]
        refine optStage_miss ?_
        rw [hr1]
        exact optComp_none_sp (by decide) (by decide) f _
      have e2 : inFromM d h (restM [] none (some f) (c :: t)) =
          inFromS d h 0 (restS [] (some f) (c :: t)) := by
        rw [hrm, inFromM]
        refine optStage_miss ?_
        rw [hr2]
        exact optComp_none_ns (by decide) (by decide) f _
      exact ⟨by rw [e1, e2, eS], by rw [e1]; exact sS⟩

theorem restH_chain (d : Nat) (h m s : Option Nat) {c : Char}
    (hc : isPySpace c = false) (t : List Char) :
    inFromH d (restH [' '] h m s (c :: t)) =
      inFromH d (restH [] h m s (c :: t)) ∧
    (inFromH d (restH [' '] h m s (c :: t))).isSome := by
  cases h with
  | some b =>
    obtain ⟨eM, sM⟩ := restM_chain d b m s hc t
    have sMns : (inFromM d b (restM [] m s (c :: t))).isSome := by
      rw [← eM]; exact sM
    have hr1 : restH [' '] (some b) m s (c :: t) =
        ' ' :: (digitsOf b ++ 'h' :: restM [' '] m s (c :: t)) := by
      simp [restH, optPart, compRender]
    have hr2 : restH [] (some b) m s (c :: t) =
        digitsOf b ++ 'h' :: restM [] m s (c :: t) := by
      simp [restH, optPart, compRender]
    have e1 : inFromH d (restH [' '] (some b) m s (c :: t)) =
        inFromM d b (restM [' '] m s (c :: t)) := by
      rw [hr1, inFromH]
      exact optStage_hit (optComp_hit_space (by decide) b _) sM
    have e2 : inFromH d (restH [] (some b) m s (c :: t)) =
        inFromM d b (restM [] m s (c :: t)) := by
      rw [hr2, inFromH]
      exact optStage_hit (optComp_hit_nospace (by decide) b _) sMns
    exact ⟨by rw [e1, e2, eM], by rw [e1]; exact sM⟩
  | none =>
    have hrh : ∀ sep, restH sep none m s (c :: t) = restM sep m s (c :: t) := by
      intro sep; simp [restH, optPart]
    obtain ⟨eM, sM⟩ := restM_chain d 0 m s hc t
    cases m with
    | some e =>
      have hr1 : restM [' '] (some e) s (c :: t) =
          ' ' :: (digitsOf e ++ 'm' :: restS [' '] s (c :: t)) := by
        simp [restM, optPart, compRender]
      have hr2 : restM [] (some e) s (c :: t) =
          digitsOf e ++ 'm' :: restS [] s (c :: t) := by
        simp [restM, optPart, compRender]
      have e1 : inFromH d (restH [' '] none (some e) s (c :: t)) =
          inFromM d 0 (restM [' '] (some e) s (c :: t)) := by
        rw [hrh, inFromH]
        refine optStage_miss ?_
        rw [hr1]
        exact optComp_none_sp (by decide) (by decide) e _
      have e2 : inFromH d (restH [] none (some e) s (c :: t)) =
          inFromM d 0 (restM [] (some e) s (c :: t)) := by
        rw [hrh, inFromH]
        refine optStage_miss ?_
        rw [hr2]
        exact optComp_none_ns (by decide) (by decide) e _
      exact ⟨by rw [e1, e2, eM], by rw [e1]; exact sM⟩
    | none =>
      have hrm : ∀ sep, restM sep none s (c :: t) = restS sep s (c :: t) := by
        intro sep; simp [restM, optPart]
      cases s with
      | none =>
        have hb : ∀ sep, restS sep (none : Option Nat) (c :: t) = ' ' :: c :: t := by
          intro sep; simp [restS, optPart]
        refine ⟨by rw [hrh, hrh, hrm, hrm, hb, hb], ?_⟩
        rw [hrh, hrm, hb]
        exact inFromH_isSome d hc t
      | some f =>
        have hr1 : restS [' '] (some f) (c :: t) =
            ' ' :: (digitsOf f ++ 's' :: ' ' :: c :: t) := by
          simp [restS, optPart, compRender]
        have hr2 : restS [] (some f) (c :: t) =
            digitsOf f ++ 's' :: ' ' :: c :: t := by
          simp [restS, optPart, compRender]
        have e1 : inFromH d (restH [' '] none none (some f) (c :: t)) =
            inFromM d 0 (restM [' '] none (some f) (c :: t)) := by
          rw [hrh, inFromH]
          refine optStage_miss ?_
          rw [hrm, hr1]
          exact optComp_none_sp (by decide) (by decide) f _
        have e2 : inFromH d (restH [] none none (some f) (c :: t)) =
            inFromM d 0 (restM [] none (some f) (c :: t)) := by
          rw [hrh, inFromH]
          refine optStage_miss ?_
          rw [hrm, hr2]
          exact optComp_none_ns (by decide) (by decide) f _
        exact ⟨by rw [e1, e2, eM], by rw [e1]; exact sM⟩

theorem sweep_fst_sublist (now : Int) (st : IrcState) :
    ∀ rs : List Reminder, (sweep now st rs).1.Sublist rs := by
  intro rs
  induction rs with
  | nil => simp [sweep]
  | cons r rs ih =>
    simp only [sweep]
    by_cases ht : r.timestamp > now
    · simp only [if_pos ht]
      exact ih.cons₂ r
    · simp only [if_neg ht]
      cases hc : lookupChannel st r.destination with
      | some members =>
        by_cases hm : r.nick ∈ members
        · simp only [if_pos hm]
          exact ih.cons r
        · simp only [if_neg hm]
          exact ih.cons₂ r
      | none =>
        by_cases hu : r.destination ∈ st.users
        · simp only [if_pos hu]
          exact ih.cons r
        · simp only [if_neg hu]
          exact ih.cons₂ r

/-! ## Claim theorems -/

/-- C3: the relative parser maps `"2m 5s reminder"` to 125 seconds with
message `"reminder"`, maps `"1d 1h 2m 5s x"` to 86400+3600+120+5 seconds
with message `"x"`, and rejects `"1s1d x"` (the seconds-only shape matches
`1s` but the mandatory whitespace before the message then fails, and no
other shape can match a leading non-day token). -/
theorem C3_parse_in_examples :
    parse_in_delta "2m 5s reminder" = some (125, "reminder") ∧
    parse_in_delta "1d 1h 2m 5s x" = some (86400 + 3600 + 120 + 5, "x") ∧
    parse_in_delta "1s1d x" = none :=
  ⟨rfl, rfl, rfl⟩

/-- C1: one sweep classifies a reminder into exactly one outcome: a
future-timestamped reminder is retained; a due reminder for a known channel
whose members include the originator is delivered as a channel reply and not
retained; the same reminder is retained when the originator is absent; a due
reminder for a known direct recipient is delivered as a direct message and
not retained; a due reminder for an unknown destination is retained.  In
every case the reminder is either retained with no delivery or delivered
exactly once and dropped. -/
theorem C1_sweep_classification :
    ∀ (r : Reminder) (now : Int) (st : IrcState),
      (r.timestamp > now → sweep now st [r] = ([r], [])) ∧
      (∀ members, r.timestamp ≤ now →
        lookupChannel st r.destination = some members →
        r.nick ∈ members →
        sweep now st [r] =
          ([], [Delivery.reply r.message r.destination r.nick])) ∧
      (∀ members, r.timestamp ≤ now →
        lookupChannel st r.destination = some members →
        r.nick ∉ members →
        sweep now st [r] = ([r], [])) ∧
      (r.timestamp ≤ now →
        lookupChannel st r.destination = none →
        r.destination ∈ st.users →
        sweep now st [r] = ([], [Delivery.say r.message r.destination])) ∧
      (r.timestamp ≤ now →
        lookupChannel st r.destination = none →
        r.destination ∉ st.users →
        sweep now st [r] = ([r], [])) ∧
      ((sweep now st [r]).1 = [r] ∧ (sweep now st [r]).2 = [] ∨
        (sweep now st [r]).1 = [] ∧ ∃ d, (sweep now st [r]).2 = [d]) := by
  intro r now st
  refine ⟨?_, ?_, ?_, ?_, ?_, ?_⟩
  · intro ht
    simp [sweep, if_pos ht]
  · intro members ht hc hm
    simp [sweep, if_neg (not_lt.mpr ht), hc, hm]
  · intro members ht hc hm
    simp [sweep, if_neg (not_lt.mpr ht), hc, hm]
  · intro ht hc hu
    simp [sweep, if_neg (not_lt.mpr ht), hc, hu]
  · intro ht hc hu
    simp [sweep, if_neg (not_lt.mpr ht), hc, hu]
  · by_cases ht : r.timestamp > now
    · left; simp [sweep, if_pos ht]
    · cases hc : lookupChannel st r.destination with
      | some members =>
        by_cases hm : r.nick ∈ members
        · right
          simp [sweep, if_neg ht, hc, hm]
        · left; simp [sweep, if_neg ht, hc, hm]
      | none =>
        by_cases hu : r.destination ∈ st.users
        · right
          simp [sweep, if_neg ht, hc, hu]
        · left; simp [sweep, if_neg ht, hc, hu]

/-- Witness for C1 at concrete inputs: a due channel reminder whose
originator is present is delivered and dropped, and a future reminder is
retained. -/
theorem C1_sweep_classification_witness :
    sweep 100 ⟨[("#chan", ["alice"])], ["bob"]⟩
        [⟨50, "#chan", "alice", "hi"⟩] =
      ([], [Delivery.reply "hi" "#chan" "alice"]) ∧
    sweep 100 ⟨[("#chan", ["alice"])], ["bob"]⟩
        [⟨200, "#chan", "alice", "later"⟩] =
      ([⟨200, "#chan", "alice", "later"⟩], []) := by
  constructor
  · exact (C1_sweep_classification ⟨50, "#chan", "alice", "hi"⟩ 100
      ⟨[("#chan", ["alice"])], ["bob"]⟩).2.1 ["alice"]
      (by decide) (by decide) (by decide)
  · exact (C1_sweep_classification ⟨200, "#chan", "alice", "later"⟩ 100
      ⟨[("#chan", ["alice"])], ["bob"]⟩).1 (by decide)

/-- C9: a sweep is a pure filter of the registry: the retained list is an
order-preserving subsequence of the input registry (nothing is added,
reordered, or modified). -/
theorem C9_sweep_is_subsequence :
    ∀ (now : Int) (st : IrcState) (rs : List Reminder),
      (sweep now st rs).1.Sublist rs :=
  fun now st rs => sweep_fst_sublist now st rs

/-- C5: after the classification pass, the retained list is persisted (one
store write of exactly the retained subset, and the in-memory registry
replaced by it) precisely when its length differs from the pre-sweep count,
which happens precisely when some reminder was removed; otherwise neither
the registry nor the store is touched. -/
theorem C5_sweep_persistence :
    ∀ (now : Int) (st : IrcState) (rs : List Reminder),
      ((sweep now st rs).1.length ≠ rs.length ↔ (sweep now st rs).1 ≠ rs) ∧
      ((sweep now st rs).1.length ≠ rs.length →
        reminder_job now st rs =
          ⟨(sweep now st rs).1, (sweep now st rs).2,
            some (save_reminders (sweep now st rs).1), 1⟩) ∧
      ((sweep now st rs).1.length = rs.length →
        reminder_job now st rs =
          ⟨rs, (sweep now st rs).2, none, 0⟩) := by
  intro now st rs
  refine ⟨⟨fun h hq => h (by rw [hq]), fun h hl =>
    h ((sweep_fst_sublist now st rs).eq_of_length hl)⟩, ?_, ?_⟩
  · intro h
    simp [reminder_job, h]
  · intro h
    simp [reminder_job, h]

/-- Witness for C5 at concrete inputs: a sweep that delivers one reminder
writes the retained subset once; a no-op sweep writes nothing. -/
theorem C5_sweep_persistence_witness :
    reminder_job 100 ⟨[("#chan", ["alice"])], []⟩
        [⟨50, "#chan", "alice", "hi"⟩] =
      ⟨[], [Delivery.reply "hi" "#chan" "alice"], some (save_reminders []), 1⟩ ∧
    reminder_job 100 ⟨[("#chan", ["alice"])], []⟩
        [⟨200, "#chan", "alice", "later"⟩] =
      ⟨[⟨200, "#chan", "alice", "later"⟩], [], none, 0⟩ := by
  constructor
  · have h := (C5_sweep_persistence 100 ⟨[("#chan", ["alice"])], []⟩
      [⟨50, "#chan", "alice", "hi"⟩]).2.1 (by decide)
    simpa using h
  · have h := (C5_sweep_persistence 100 ⟨[("#chan", ["alice"])], []⟩
      [⟨200, "#chan", "alice", "later"⟩]).2.2 (by decide)
    simpa using h

theorem asString_toList (s : String) : s.toList.asString = s := rfl

theorem scanQuoted_esc {f : List Char} {c : Char} (hc : c ≠ '"')
    (r : List Char) :
    scanQuoted (escQuotes f ++ '"' :: c :: r) = (f, c :: r) := by
  induction f with
  | nil =>
    simp only [escQuotes, List.nil_append, scanQuoted, if_pos rfl,
      if_neg hc, if_true]
  | cons x xs ih =>
    by_cases hx : x = '"'
    · subst hx
      simp only [escQuotes, if_pos rfl, List.cons_append, scanQuoted,
        if_true, List.append_eq, ih]
    · simp only [escQuotes, if_neg hx, List.cons_append]
      rw [scanQuoted.eq_def]
      simp only [if_neg hx, ih]

theorem parseField_quoted {f : List Char} {c : Char} (hc : c ≠ '"')
    (r : List Char) :
    parseField (quoteField f ++ c :: r) = (f, c :: r) := by
  have h : quoteField f ++ c :: r =
      '"' :: (escQuotes f ++ '"' :: c :: r) := by
    simp [quoteField]
  rw [h, parseField]
  exact scanQuoted_esc hc r

theorem parseRecord_row :
    ∀ (fs : List (List Char)) (fuel : Nat) (rest : List Char),
      fs.length ≤ fuel → fs ≠ [] →
      parseRecord fuel (csvRow fs ++ rest) = (fs.map List.asString, rest) := by
  intro fs
  induction fs with
  | nil => intro fuel rest hlen hne; exact absurd rfl hne
  | cons f gs ih =>
    intro fuel rest hlen hne
    obtain ⟨fuel', rfl⟩ : ∃ k, fuel = k + 1 :=
      ⟨fuel - 1, by simp at hlen; omega⟩
    cases gs with
    | nil =>
      have hinput : csvRow [f] ++ rest =
          quoteField f ++ '\r' :: '\n' :: rest := by
        simp [csvRow, rowCore]
      rw [hinput, parseRecord]
      simp [parseField_quoted (by decide : ('\r' : Char) ≠ '"')
        ('\n' :: rest)]
    | cons g gs' =>
      have hinput : csvRow (f :: g :: gs') ++ rest =
          quoteField f ++ ',' :: (csvRow (g :: gs') ++ rest) := by
        simp [csvRow, rowCore]
      rw [hinput, parseRecord]
      simp [parseField_quoted (by decide : (',' : Char) ≠ '"')
          (csvRow (g :: gs') ++ rest),
        ih fuel' rest (by simp at hlen ⊢; omega) (by simp)]

theorem parseRows_nil (fuel : Nat) : parseRows fuel [] = [] := by
  cases fuel <;> rfl

theorem quoteField_length_ge (f : List Char) :
    2 ≤ (quoteField f).length := by
  simp [quoteField]

theorem rowCore_length_ge :
    ∀ fs : List (List Char), fs.length ≤ (rowCore fs).length := by
  intro fs
  induction fs with
  | nil => simp [rowCore]
  | cons f gs ih =>
    cases gs with
    | nil =>
      have := quoteField_length_ge f
      simp [rowCore]
      omega
    | cons g gs' =>
      have h1 := quoteField_length_ge f
      simp only [rowCore, List.length_append, List.length_cons] at ih ⊢
      omega

theorem csvRow_length_ge (fs : List (List Char)) :
    fs.length + 2 ≤ (csvRow fs).length := by
  have := rowCore_length_ge fs
  simp [csvRow]
  omega

theorem parseRows_save :
    ∀ (rs : List Reminder) (fuel : Nat),
      (saveContent rs).length < fuel →
      parseRows fuel (saveContent rs) =
        rs.map (fun r => (serialize r).map List.asString) := by
  intro rs
  induction rs with
  | nil => intro fuel hf; simp [saveContent, parseRows_nil]
  | cons r rs' ih =>
    intro fuel hf
    have hcs : saveContent (r :: rs') =
        csvRow (serialize r) ++ saveContent rs' := by
      simp [saveContent]
    obtain ⟨fuel', rfl⟩ : ∃ k, fuel = k + 1 := ⟨fuel - 1, by omega⟩
    have hrowlen := csvRow_length_ge (serialize r)
    have hser : (serialize r).length = 4 := by simp [serialize]
    have hlen : (saveContent (r :: rs')).length =
        (csvRow (serialize r)).length + (saveContent rs').length := by
      rw [hcs]; simp
    have hne2 : csvRow (serialize r) ++ saveContent rs' ≠ [] := by
      intro hemp
      have h0 : (csvRow (serialize r) ++ saveContent rs').length = 0 := by
        rw [hemp]; rfl
      simp only [List.length_append] at h0
      omega
    have hftail : (saveContent rs').length < fuel' := by
      rw [hcs] at hf
      simp only [List.length_append] at hf
      omega
    rw [hcs, parseRows]
    · rw [parseRecord_row (serialize r) (fuel' + 1) (saveContent rs')
        (by omega) (by simp [serialize])]
      rw [ih fuel' hftail]
      simp
    · exact hne2

theorem csvRecords_save (rs : List Reminder) :
    csvRecords (saveContent rs) =
      rs.map (fun r => (serialize r).map List.asString) := by
  rw [csvRecords, parseRows_save rs _ (by omega)]

theorem trimWs_id {l : List Char} (h : ∀ c ∈ l, isPySpace c = false) :
    trimWs l = l := by
  have h1 : l.dropWhile isPySpace = l := by
    cases l with
    | nil => rfl
    | cons c cs =>
      rw [List.dropWhile_cons, h c (List.mem_cons_self c cs)]
      simp
  rw [trimWs, h1]
  have h2 : l.reverse.dropWhile isPySpace = l.reverse := by
    cases hrev : l.reverse with
    | nil => rfl
    | cons c cs =>
      rw [List.dropWhile_cons, h c (by
        have : c ∈ l.reverse := by rw [hrev]; exact List.mem_cons_self c cs
        exact List.mem_reverse.mp this)]
      simp
  rw [h2, List.reverse_reverse]

theorem digitsCore_digits :
    ∀ (t : List Char) (acc : Nat), (∀ c ∈ t, c.isDigit = true) →
      digitsCore t acc =
        some (t.foldl (fun a c => a * 10 + digitVal c) acc) := by
  intro t
  induction t with
  | nil => intro acc h; rfl
  | cons c cs ih =>
    intro acc h
    have hc : c.isDigit = true := h c (List.mem_cons_self c cs)
    have hcu : c ≠ '_' := by
      intro he; subst he; exact absurd hc (by decide)
    rw [digitsCore.eq_def]
    simp only []
    rw [if_neg hcu, if_pos hc,
      ih _ (fun x hx => h x (List.mem_cons_of_mem c hx))]
    rfl

theorem pyIntNat_digitsOf (n : Nat) : pyIntNat (digitsOf n) = some n := by
  obtain ⟨c, t, hct⟩ := List.exists_cons_of_ne_nil (digitsOf_ne_nil n)
  have hall := digitsOf_all_digit n
  rw [hct] at hall
  have hc : c.isDigit = true := hall c (List.mem_cons_self c t)
  have hval := natOfDigits_digitsOf n
  rw [hct] at hval
  rw [hct, pyIntNat, if_pos hc,
    digitsCore_digits t (digitVal c)
      (fun x hx => hall x (List.mem_cons_of_mem c hx))]
  rw [natOfDigits] at hval
  simp only [List.foldl_cons] at hval
  rw [show (0 * 10 + digitVal c) = digitVal c by omega] at hval
  rw [hval]

theorem pyInt_intRepr (i : Int) : pyInt (intRepr i) = some i := by
  cases i with
  | ofNat n =>
    have hid : trimWs (intRepr (Int.ofNat n)) = digitsOf n := by
      refine trimWs_id ?_
      intro c hc
      exact digit_not_space (digitsOf_all_digit n c hc)
    obtain ⟨c, t, hct⟩ := List.exists_cons_of_ne_nil (digitsOf_ne_nil n)
    have hc : c.isDigit = true :=
      digitsOf_all_digit n c (by rw [hct]; exact List.mem_cons_self c t)
    have hminus : c ≠ '-' := by
      intro he; subst he; exact absurd hc (by decide)
    have hplus : c ≠ '+' := by
      intro he; subst he; exact absurd hc (by decide)
    rw [pyInt, hid, hct, pyIntSigned, if_neg hminus, if_neg hplus, ← hct,
      pyIntNat_digitsOf n]
    rfl
  | negSucc n =>
    have hid : trimWs (intRepr (Int.negSucc n)) =
        '-' :: digitsOf (n + 1) := by
      refine trimWs_id ?_
      intro c hc
      rw [intRepr] at hc
      rcases List.mem_cons.mp hc with hc | hc
      · subst hc; decide
      · exact digit_not_space (digitsOf_all_digit (n + 1) c hc)
    rw [pyInt, hid, pyIntSigned, if_pos rfl, pyIntNat_digitsOf (n + 1)]
    simp [Int.negSucc_eq]

theorem mkRow_serialized (r : Reminder) :
    mkRow ((serialize r).map List.asString) = some r := by
  simp only [serialize, List.map, mkRow, asString_toList,
    toList_asString, pyInt_intRepr]
  rfl

theorem loadRows_serialized (rs : List Reminder) :
    loadRows (rs.map (fun r => (serialize r).map List.asString)) =
      some rs := by
  induction rs with
  | nil => rfl
  | cons r rs' ih =>
    simp only [List.map_cons, loadRows, mkRow_serialized, ih,
      Option.some_bind]
    rfl

theorem loadRows_some_spec :
    ∀ (rows : List (List String)) (l : List Reminder),
      loadRows rows = some l →
      l.length = rows.length ∧
      ∀ (i : Nat) (h1 : i < rows.length) (h2 : i < l.length),
        mkRow (rows.get ⟨i, h1⟩) = some (l.get ⟨i, h2⟩) := by
  intro rows
  induction rows with
  | nil =>
    intro l hl
    simp only [loadRows, Option.some.injEq] at hl
    subst hl
    exact ⟨rfl, fun i h1 h2 => absurd h1 (by simp)⟩
  | cons row rows' ih =>
    intro l hl
    rw [loadRows] at hl
    cases hr : mkRow row with
    | none => rw [hr] at hl; simp at hl
    | some b =>
      rw [hr] at hl
      cases hrest : loadRows rows' with
      | none => rw [hrest] at hl; simp at hl
      | some l' =>
        rw [hrest] at hl
        simp only [Option.some_bind, Option.map_some',
          Option.some.injEq] at hl
        obtain ⟨hlen, hidx⟩ := ih l' hrest
        subst hl
        refine ⟨by simp [hlen], ?_⟩
        intro i h1 h2
        cases i with
        | zero => simpa using hr
        | succ j =>
          simp only [List.get_cons_succ]
          exact hidx j (by simpa using h1) (by simpa using h2)

theorem loadRows_none_iff :
    ∀ rows : List (List String),
      loadRows rows = none ↔ ∃ row ∈ rows, mkRow row = none := by
  intro rows
  induction rows with
  | nil => simp [loadRows]
  | cons row rows' ih =>
    rw [loadRows]
    constructor
    · intro hl
      cases hr : mkRow row with
      | none => exact ⟨row, List.mem_cons_self row rows', hr⟩
      | some b =>
        rw [hr] at hl
        cases hrest : loadRows rows' with
        | none =>
          obtain ⟨row', hmem, hnone⟩ := ih.mp hrest
          exact ⟨row', List.mem_cons_of_mem row hmem, hnone⟩
        | some l' => rw [hrest] at hl; simp at hl
    · rintro ⟨row', hmem, hnone⟩
      rcases List.mem_cons.mp hmem with hm | hm
      · subst hm
        rw [hnone]
        rfl
      · cases hr : mkRow row with
        | none => rfl
        | some b =>
          have hnone2 : loadRows rows' = none := ih.mpr ⟨row', hm, hnone⟩
          simp only [Option.some_bind, hnone2, Option.map_none']

theorem mkRow_none_iff (row : List String) :
    mkRow row = none ↔
      row.length < 4 ∨ pyInt row.headI.toList = none := by
  match row with
  | [] => simp [mkRow]
  | [a] => simp [mkRow]
  | [a, b] => simp [mkRow]
  | [a, b, c] => simp [mkRow]
  | t :: d :: n :: m :: rest =>
    rw [mkRow]
    constructor
    · intro h
      cases hp : pyInt t.toList with
      | none => exact Or.inr (by simpa using hp)
      | some v => rw [hp] at h; simp at h
    · intro h
      rcases h with h | h
      · simp at h; omega
      · simp only [List.headI] at h
        rw [h]
        rfl

/-- C2: saving any sequence of valid reminders (integer timestamp, string
destination, string originator, non-empty message) and loading from the
same locator returns a sequence equal to the saved one field-for-field, in
the same order. -/
theorem C2_save_load_roundtrip :
    ∀ rs : List Reminder, (∀ r ∈ rs, r.message ≠ "") →
      (load_reminders (some (save_reminders rs))).2 = some rs := by
  intro rs _
  show loadRows (csvRecords ((save_reminders rs)).toList) = some rs
  have h1 : (save_reminders rs).toList = saveContent rs :=
    toList_asString _
  rw [h1, csvRecords_save, loadRows_serialized]

/-- Witness for C2 on a concrete two-reminder sequence with embedded
quotes, commas, newlines, and a negative timestamp. -/
theorem C2_save_load_roundtrip_witness :
    (load_reminders (some (save_reminders
      [⟨1687797939, "#test", "TestUser", "Test Message."⟩,
       ⟨-5, "a,b", "ni\"ck", "multi\nline, \"quoted\""⟩]))).2 =
    some [⟨1687797939, "#test", "TestUser", "Test Message."⟩,
      ⟨-5, "a,b", "ni\"ck", "multi\nline, \"quoted\""⟩] :=
  C2_save_load_roundtrip
    [⟨1687797939, "#test", "TestUser", "Test Message."⟩,
     ⟨-5, "a,b", "ni\"ck", "multi\nline, \"quoted\""⟩]
    (by decide)

/-- Counterexample to C6 as stated: the claim says a record with any field
count other than 4 is malformed and must fail the load, but the code
unpacks `timestamp, destination, nick, message, *args`, so this 5-field
record loads successfully (the fifth field is ignored). -/
theorem C6_counterexample :
    csvRecords ("\"1\",\"a\",\"b\",\"c\",\"d\"\r\n").toList =
      [["1", "a", "b", "c", "d"]] ∧
    (load_reminders (some "\"1\",\"a\",\"b\",\"c\",\"d\"\r\n")).2 =
      some [⟨1, "a", "b", "c"⟩] := by
  constructor
  · rfl
  · rfl

/-- C6 (amended): loading from an absent locator creates an empty file and
returns the empty sequence; loaded records correspond one-to-one, in file
order, to the parsed records; and loading fails exactly when some record is
malformed, where malformed means fewer than four fields or a non-integer
timestamp field (records with more than four fields are accepted and the
extra fields ignored). -/
theorem C6_load_error_handling :
    (load_reminders none = ("", some [])) ∧
    (∀ (rows : List (List String)) (l : List Reminder),
      loadRows rows = some l →
      l.length = rows.length ∧
      ∀ (i : Nat) (h1 : i < rows.length) (h2 : i < l.length),
        mkRow (rows.get ⟨i, h1⟩) = some (l.get ⟨i, h2⟩)) ∧
    (∀ rows : List (List String),
      loadRows rows = none ↔
        ∃ row ∈ rows,
          row.length < 4 ∨ pyInt row.headI.toList = none) := by
  refine ⟨rfl, loadRows_some_spec, ?_⟩
  intro rows
  rw [loadRows_none_iff rows]
  constructor
  · rintro ⟨row, hmem, hnone⟩
    exact ⟨row, hmem, (mkRow_none_iff row).mp hnone⟩
  · rintro ⟨row, hmem, hbad⟩
    exact ⟨row, hmem, (mkRow_none_iff row).mpr hbad⟩

/-- Witness for C6: a well-formed two-record file loads in order, and a
4-field record with a non-integer timestamp makes the load fail. -/
theorem C6_load_error_handling_witness :
    mkRow [["1", "a", "b", "c"], ["2", "d", "e", "f"]].headI =
      some ⟨1, "a", "b", "c"⟩ ∧
    loadRows [["x", "a", "b", "c"]] = none := by
  constructor
  · have h := (C6_load_error_handling.2.1
      [["1", "a", "b", "c"], ["2", "d", "e", "f"]]
      [⟨1, "a", "b", "c"⟩, ⟨2, "d", "e", "f"⟩] (by rfl)).2 0
      (by decide) (by decide)
    simpa using h
  · exact (C6_load_error_handling.2.2 [["x", "a", "b", "c"]]).mpr
      ⟨["x", "a", "b", "c"], by simp, Or.inr (by rfl)⟩

theorem parse_at_time_match {line : String} {spec : AtSpec}
    {text : List Char} (now : NaiveDT)
    (hm : matchAt line.toList = some (spec, text)) :
    parse_at_time line now = resolveAt spec text.asString now := by
  rw [parse_at_time, hm]

theorem importLinesAux_length :
    ∀ (ls : List (List Char)) (l : List Reminder),
      importLinesAux ls = some l → l.length = ls.length := by
  intro ls
  induction ls with
  | nil =>
    intro l hl
    simp only [importLinesAux, Option.some.injEq] at hl
    subst hl
    rfl
  | cons line ls' ih =>
    intro l hl
    rw [importLinesAux] at hl
    cases hr : parseLegacyLine line with
    | none => rw [hr] at hl; simp at hl
    | some r =>
      rw [hr] at hl
      cases hrest : importLinesAux ls' with
      | none => rw [hrest] at hl; simp at hl
      | some l' =>
        rw [hrest] at hl
        simp only [Option.some_bind, Option.map_some',
          Option.some.injEq] at hl
        subst hl
        simp [ih l' hrest]

/-- C8: the absolute parser fails with `ParseError` on every input that
matches the digit-shape grammar but whose composed date or time is
calendar-invalid (invalid day-of-month, invalid month, hour 24 or greater,
minute 60 or greater, or second 60 or greater). -/
theorem C8_at_calendar_invalid :
    ∀ (line : String) (now : NaiveDT) (spec : AtSpec) (text : List Char),
      matchAt line.toList = some (spec, text) →
      (composeAt spec now).valid = false →
      parse_at_time line now = .error .parseError := by
  intro line now spec text hm hv
  rw [parse_at_time_match now hm, resolveAt]
  simp [hv]

/-- Witness for C8: `"2024-02-30 msg"` (February 30th), `"24:00 msg"`
(hour 24), `"10:60 msg"` (minute 60), and `"2024-13-01 msg"` (month 13)
all match the digit-shape grammar, are calendar-invalid, and fail. -/
theorem C8_at_calendar_invalid_witness :
    parse_at_time "2024-02-30 msg" ⟨2023, 6, 17, 10, 13, 10⟩ =
      .error .parseError ∧
    parse_at_time "24:00 msg" ⟨2023, 6, 17, 10, 13, 10⟩ =
      .error .parseError ∧
    parse_at_time "10:60 msg" ⟨2023, 6, 17, 10, 13, 10⟩ =
      .error .parseError ∧
    parse_at_time "2024-13-01 msg" ⟨2023, 6, 17, 10, 13, 10⟩ =
      .error .parseError := by
  refine ⟨?_, ?_, ?_, ?_⟩
  · exact C8_at_calendar_invalid "2024-02-30 msg" ⟨2023, 6, 17, 10, 13, 10⟩
      (.dateOnly (2024, 2, 30)) "msg".toList rfl (by decide)
  · exact C8_at_calendar_invalid "24:00 msg" ⟨2023, 6, 17, 10, 13, 10⟩
      (.timeOnly (24, 0, 0)) "msg".toList rfl (by decide)
  · exact C8_at_calendar_invalid "10:60 msg" ⟨2023, 6, 17, 10, 13, 10⟩
      (.timeOnly (10, 60, 0)) "msg".toList rfl (by decide)
  · exact C8_at_calendar_invalid "2024-13-01 msg" ⟨2023, 6, 17, 10, 13, 10⟩
      (.dateOnly (2024, 13, 1)) "msg".toList rfl (by decide)

/-- C4 (amended): for every absolute input whose composed local instant is
valid and at or before the reference `now`: if the input was time-only the
parser advances the instant by exactly one day and succeeds whenever that
next day exists in the representable calendar, and fails with an overflow
error (distinct from `ParseError`) at the calendar maximum
(9999-12-31); in every other case (date-only, date+time, time+date) it
fails with `ParseError`.  In particular, with reference instant
2023-06-17T10:13:10Z, `"11:20 msg"` resolves to 2023-06-17T11:20:00Z,
`"05:20 msg"` rolls to 2023-06-18T05:20:00Z, and `"2023-06-17 msg"`
(today, date-only) fails. -/
theorem C4_at_past_resolution :
    (∀ (line : String) (now : NaiveDT) (spec : AtSpec) (text : List Char),
      matchAt line.toList = some (spec, text) →
      (composeAt spec now).valid = true →
      (composeAt spec now).le now = true →
      (spec.isTimeOnly = true →
        parse_at_time line now =
          match addOneDay (composeAt spec now) with
          | some req2 => .ok (req2, text.asString)
          | none => .error .overflowError) ∧
      (spec.isTimeOnly = false →
        parse_at_time line now = .error .parseError)) ∧
    parse_at_time "11:20 msg" ⟨2023, 6, 17, 10, 13, 10⟩ =
      .ok (⟨2023, 6, 17, 11, 20, 0⟩, "msg") ∧
    parse_at_time "05:20 msg" ⟨2023, 6, 17, 10, 13, 10⟩ =
      .ok (⟨2023, 6, 18, 5, 20, 0⟩, "msg") ∧
    parse_at_time "2023-06-17 msg" ⟨2023, 6, 17, 10, 13, 10⟩ =
      .error .parseError := by
  refine ⟨?_, rfl, rfl, rfl⟩
  intro line now spec text hm hv hle
  constructor
  · intro hto
    rw [parse_at_time_match now hm, resolveAt]
    simp [hv, hle, hto]
  · intro hto
    rw [parse_at_time_match now hm, resolveAt]
    simp [hv, hle, hto]

/-- Counterexample to C4 as stated: the claim says a time-only input whose
composed instant is at or before `now` always succeeds after advancing one
day, but at the calendar maximum (now = 9999-12-31T23:59:59, input
`"00:00 x"`) the one-day addition overflows: the code raises
`OverflowError` (which, unlike `ValueError`, is not the parse failure the
caller handles), so the parse does not succeed. -/
theorem C4_counterexample :
    AtSpec.isTimeOnly (.timeOnly (0, 0, 0)) = true ∧
    matchAt ("00:00 x").toList = some (.timeOnly (0, 0, 0), ['x']) ∧
    (composeAt (.timeOnly (0, 0, 0)) ⟨9999, 12, 31, 23, 59, 59⟩).valid =
      true ∧
    (composeAt (.timeOnly (0, 0, 0)) ⟨9999, 12, 31, 23, 59, 59⟩).le
      ⟨9999, 12, 31, 23, 59, 59⟩ = true ∧
    parse_at_time "00:00 x" ⟨9999, 12, 31, 23, 59, 59⟩ =
      .error .overflowError := by
  refine ⟨rfl, rfl, by decide, by decide, rfl⟩

/-- Witness for C4 at the claim's reference instant: the rolled time-only
input and the failing date-only input, derived from the general statement.
-/
theorem C4_at_past_resolution_witness :
    parse_at_time "05:20 msg" ⟨2023, 6, 17, 10, 13, 10⟩ =
      .ok (⟨2023, 6, 18, 5, 20, 0⟩, "msg") ∧
    parse_at_time "2023-06-17 msg" ⟨2023, 6, 17, 10, 13, 10⟩ =
      .error .parseError := by
  constructor
  · exact (C4_at_past_resolution.1 "05:20 msg" ⟨2023, 6, 17, 10, 13, 10⟩
      (.timeOnly (5, 20, 0)) "msg".toList rfl (by decide) (by decide)).1 rfl
  · exact (C4_at_past_resolution.1 "2023-06-17 msg"
      ⟨2023, 6, 17, 10, 13, 10⟩ (.dateOnly (2023, 6, 17)) "msg".toList rfl
      (by decide) (by decide)).2 rfl

/-- C7 (amended): migrating a legacy file appends its reminders, in file
order and with fractional seconds truncated, after the current store's
existing contents without overwriting them, and returns the number of lines
read; when the legacy file is absent, configuration migrates nothing and
performs no backup rename; when the legacy file exists but is empty, the
migration returns 0 and the backup rename is still performed. -/
theorem C7_migration :
    (∀ store : String,
      configure_migration none store = some (0, false, store)) ∧
    (∀ (store : String) (rs : List Reminder),
      (load_reminders (some store)).2 = some rs →
      configure_migration (some "") store =
        some (0, true, save_reminders rs)) ∧
    (∀ (fromC store : String) (rs imported : List Reminder),
      (load_reminders (some store)).2 = some rs →
      importLines fromC = some imported →
      migrate_builtin fromC store =
        some (save_reminders (rs ++ imported),
          (splitLines fromC.toList).length) ∧
      imported.length = (splitLines fromC.toList).length) := by
  refine ⟨fun store => rfl, ?_, ?_⟩
  · intro store rs h1
    have h2 : importLines "" = some [] := rfl
    have hmb : migrate_builtin "" store =
        some (save_reminders (rs ++ []), 0) := by
      rw [migrate_builtin, h1]
      simp only []
      rw [h2]
      rfl
    rw [configure_migration]
    show (migrate_builtin "" store).map (fun p => (p.2, true, p.1)) = _
    rw [hmb]
    simp only [Option.map_some', List.append_nil]
  · intro fromC store rs imported h1 h2
    constructor
    · rw [migrate_builtin, h1]
      simp only []
      rw [h2]
    · rw [importLines] at h2
      exact importLinesAux_length _ _ h2

/-- Counterexample to C7 as stated: the claim says an empty legacy file
triggers no backup rename, but `configure` renames the legacy file whenever
it exists, empty or not (the repository's own tests assert the rename
happens for an empty file): migrating an existing empty legacy file returns
0 with the rename performed. -/
theorem C7_counterexample :
    configure_migration (some "") "" = some (0, true, "") := rfl

/-- Witness for C7: a one-line legacy file (with a fractional-second
timestamp) appended to an empty store yields one imported reminder with the
timestamp truncated, and the returned count is the line count. -/
theorem C7_migration_witness :
    migrate_builtin "1687797939.5\t#test\tTestUser\tTest Message.\n" "" =
      some (save_reminders
        ([] ++ [⟨1687797939, "#test", "TestUser", "Test Message."⟩]), 1) ∧
    ([⟨1687797939, "#test", "TestUser", "Test Message."⟩] :
        List Reminder).length =
      (splitLines
        ("1687797939.5\t#test\tTestUser\tTest Message.\n").toList).length := by
  have h := C7_migration.2.2 "1687797939.5\t#test\tTestUser\tTest Message.\n"
    "" [] [⟨1687797939, "#test", "TestUser", "Test Message."⟩] rfl rfl
  exact ⟨h.1, h.2⟩

/-- C10: in the `in` grammar the whitespace between successive duration
components is optional: for every valid component sequence (a non-empty
subset of the `d`, `h`, `m`, `s` components in grammar order) and every
message starting with a non-whitespace character, the input rendered with a
single space between components and the input rendered with no space
between components parse to the same result (same duration, same message).
-/
theorem C10_in_separator_optional :
    ∀ (d h m s : Option Nat) (c : Char) (t : List Char),
      (d.isSome || h.isSome || m.isSome || s.isSome) = true →
      isPySpace c = false →
      parse_in_delta ((inRender [' '] d h m s (c :: t)).asString) =
        parse_in_delta ((inRender [] d h m s (c :: t)).asString) := by
  intro d h m s c t hne hc
  cases d with
  | some a =>
    obtain ⟨eH, sH⟩ := restH_chain a h m s hc t
    have sHns : (inFromH a (restH [] h m s (c :: t))).isSome := by
      rw [← eH]; exact sH
    have hd1 : shapeDays
        ((inRender [' '] (some a) h m s (c :: t)).asString).toList =
        inFromH a (restH [' '] h m s (c :: t)) := by
      rw [toList_asString]
      have hr : inRender [' '] (some a) h m s (c :: t) =
          digitsOf a ++ 'd' :: restH [' '] h m s (c :: t) := by
        simp [inRender, compRender]
      rw [hr]
      exact shapeDays_comp (comp_hit (by decide) a _)
    have hd2 : shapeDays
        ((inRender [] (some a) h m s (c :: t)).asString).toList =
        inFromH a (restH [] h m s (c :: t)) := by
      rw [toList_asString]
      have hr : inRender [] (some a) h m s (c :: t) =
          digitsOf a ++ 'd' :: restH [] h m s (c :: t) := by
        simp [inRender, compRender]
      rw [hr]
      exact shapeDays_comp (comp_hit (by decide) a _)
    rw [parse_in_via_days hd1 sH, parse_in_via_days hd2 sHns, eH]
  | none =>
    cases h with
    | some b =>
      obtain ⟨eM, sM⟩ := restM_chain 0 b m s hc t
      have sMns : (inFromM 0 b (restM [] m s (c :: t))).isSome := by
        rw [← eM]; exact sM
      have hr1 : inRender [' '] none (some b) m s (c :: t) =
          digitsOf b ++ 'h' :: restM [' '] m s (c :: t) := by
        simp [inRender, compRender]
      have hr2 : inRender [] none (some b) m s (c :: t) =
          digitsOf b ++ 'h' :: restM [] m s (c :: t) := by
        simp [inRender, compRender]
      have h0a : shapeDays
          ((inRender [' '] none (some b) m s (c :: t)).asString).toList =
          none := by
        rw [toList_asString, hr1]
        exact shapeDays_none (comp_miss (by decide) (by decide) b _)
      have h0b : shapeDays
          ((inRender [] none (some b) m s (c :: t)).asString).toList =
          none := by
        rw [toList_asString, hr2]
        exact shapeDays_none (comp_miss (by decide) (by decide) b _)
      have h1a : shapeHours
          ((inRender [' '] none (some b) m s (c :: t)).asString).toList =
          inFromM 0 b (restM [' '] m s (c :: t)) := by
        rw [toList_asString, hr1]
        exact shapeHours_comp (comp_hit (by decide) b _)
      have h1b : shapeHours
          ((inRender [] none (some b) m s (c :: t)).asString).toList =
          inFromM 0 b (restM [] m s (c :: t)) := by
        rw [toList_asString, hr2]
        exact shapeHours_comp (comp_hit (by decide) b _)
      rw [parse_in_via_hours h0a h1a sM, parse_in_via_hours h0b h1b sMns, eM]
    | none =>
      cases m with
      | some e =>
        obtain ⟨eS, sS⟩ := restS_chain 0 0 e s hc t
        have sSns : (inFromS 0 0 e (restS [] s (c :: t))).isSome := by
          rw [← eS]; exact sS
        have hr1 : inRender [' '] none none (some e) s (c :: t) =
            digitsOf e ++ 'm' :: restS [' '] s (c :: t) := by
          simp [inRender, compRender]
        have hr2 : inRender [] none none (some e) s (c :: t) =
            digitsOf e ++ 'm' :: restS [] s (c :: t) := by
          simp [inRender, compRender]
        have h0a : shapeDays
            ((inRender [' '] none none (some e) s (c :: t)).asString).toList =
            none := by
          rw [toList_asString, hr1]
          exact shapeDays_none (comp_miss (by decide) (by decide) e _)
        have h0b : shapeDays
            ((inRender [] none none (some e) s (c :: t)).asString).toList =
            none := by
          rw [toList_asString, hr2]
          exact shapeDays_none (comp_miss (by decide) (by decide) e _)
        have h1a : shapeHours
            ((inRender [' '] none none (some e) s (c :: t)).asString).toList =
            none := by
          rw [toList_asString, hr1]
          exact shapeHours_none (comp_miss (by decide) (by decide) e _)
        have h1b : shapeHours
            ((inRender [] none none (some e) s (c :: t)).asString).toList =
            none := by
          rw [toList_asString, hr2]
          exact shapeHours_none (comp_miss (by decide) (by decide) e _)
        have h2a : shapeMinutes
            ((inRender [' '] none none (some e) s (c :: t)).asString).toList =
            inFromS 0 0 e (restS [' '] s (c :: t)) := by
          rw [toList_asString, hr1]
          exact shapeMinutes_comp (comp_hit (by decide) e _)
        have h2b : shapeMinutes
            ((inRender [] none none (some e) s (c :: t)).asString).toList =
            inFromS 0 0 e (restS [] s (c :: t)) := by
          rw [toList_asString, hr2]
          exact shapeMinutes_comp (comp_hit (by decide) e _)
        rw [parse_in_via_minutes h0a h1a h2a sS,
          parse_in_via_minutes h0b h1b h2b sSns, eS]
      | none =>
        cases s with
        | some f => rfl
        | none => simp at hne

/-- Witness for C10 at the claim's example inputs, `"2m 30s msg"` and
`"2m30s msg"`. -/
theorem C10_in_separator_optional_witness :
    parse_in_delta
        ((inRender [' '] none none (some 2) (some 30) ['m', 's', 'g']).asString) =
      parse_in_delta
        ((inRender [] none none (some 2) (some 30) ['m', 's', 'g']).asString) :=
  C10_in_separator_optional none none (some 2) (some 30) 'm' ['s', 'g']
    (by decide) (by decide)

end SopelRemind
